import Mathlib

/- Shallow embedding of the web content extraction pipeline implemented by
class WebFetcher in src/web-fetcher/src/index.ts.  JavaScript strings are
modelled as Lean String / List Char; the numbers produced by the scorer are
small exact rationals (integers plus contentLength / 100), so scores are
modelled as ℚ. -/

/-- Character class of the JavaScript regex class backslash-s (and of
String.prototype.trim): space, tab, line terminators and the Unicode
space separators. -/
def isJsSpace (c : Char) : Bool :=
  c = ' ' || c = '\t' || c = '\n' || c = '\r' || c = '\x0b' || c = '\x0c' ||
  c = '\u00A0' || c = '\uFEFF' || c = '\u1680' ||
  ('\u2000' ≤ c && c ≤ '\u200A') || c = '\u2028' || c = '\u2029' ||
  c = '\u202F' || c = '\u205F' || c = '\u3000'

/-- JavaScript String.prototype.trim on a character list. -/
def jsTrim (l : List Char) : List Char :=
  ((l.dropWhile isJsSpace).reverse.dropWhile isJsSpace).reverse

/-- Case-insensitive matching of the fixed calculateScore patterns is modelled
by ASCII-lowering the subject, exactly what the JavaScript i flag amounts to on
these ASCII-only literal patterns. -/
def lowerChars (s : String) : List Char := s.data.map Char.toLower

/-- The pattern occurs as a contiguous run inside the list, at any position
(JavaScript String.prototype.includes, or an unanchored literal regex). -/
def containsChars (pat : List Char) : List Char → Bool
  | [] => pat.isEmpty
  | c :: rest => pat.isPrefixOf (c :: rest) || containsChars pat rest

/-- Character automaton for content.split of the regex: newline,
backslash-s star, newline (index.ts line 434), with the JavaScript
leftmost-greedy semantics: at a newline the regex matches iff the whitespace
run that follows contains another newline, and the greedy star consumes that
run up to its last newline, so the run characters after its last newline open
the next piece.  cur holds the current piece reversed.  When inRun is true the
scanner sits inside a whitespace run that began with a newline: pend buffers
that whole run suffix reversed (restored into the piece when no second newline
ever arrives), afterNl buffers only the characters after the last newline seen
so far, and matched records whether a second newline appeared in the run. -/
def splitGo (inRun : Bool) (cur pend afterNl : List Char) (matched : Bool) :
    List Char → List (List Char)
  | [] =>
    if inRun then
      if matched then [cur.reverse, afterNl.reverse] else [(pend ++ cur).reverse]
    else [cur.reverse]
  | c :: rest =>
    if inRun then
      if c = '\n' then splitGo true cur (c :: pend) [] true rest
      else if isJsSpace c then splitGo true cur (c :: pend) (c :: afterNl) matched rest
      else if matched then cur.reverse :: splitGo false (c :: afterNl) [] [] false rest
      else splitGo false (c :: (pend ++ cur)) [] [] false rest
    else
      if c = '\n' then splitGo true cur ['\n'] [] false rest
      else splitGo false (c :: cur) [] [] false rest

/-- content.split on blank-line boundaries, as used by calculateScore. -/
def splitOnBlank (content : List Char) : List (List Char) :=
  splitGo false [] [] [] false content

/-- Paragraphs counted by calculateScore: pieces of the blank-line split whose
trimmed length exceeds 50 (index.ts line 434). -/
def paragraphCount (content : String) : Nat :=
  ((splitOnBlank content.data).filter (fun p => 50 < (jsTrim p).length)).length

/-- The fixed failure-indicator patterns of calculateScore (lines 437-445). -/
def errorPatterns : List (List Char) :=
  ["error".data, "not found".data, "access denied".data, "forbidden".data,
   "timeout".data, "captcha".data, "robot".data]

/-- Some error pattern matches the content, case-insensitively (line 447). -/
def hasErrors (content : String) : Bool :=
  errorPatterns.any (fun pat => containsChars pat (lowerChars content))

/-- The head of the list is a whitespace character. -/
def headIsSpace : List Char → Bool
  | d :: _ => isJsSpace d
  | [] => false

/-- Regex: one to six hash characters then a whitespace character; it matches
iff some hash character is immediately followed by whitespace. -/
def hasHashHeading : List Char → Bool
  | [] => false
  | c :: rest => (c = '#' && headIsSpace rest) || hasHashHeading rest

/-- The list starts with the letter h and a digit 1-6. -/
def startsHtmlHeading : List Char → Bool
  | 'h' :: d :: _ => '1' ≤ d && d ≤ '6'
  | _ => false

/-- Regex: the literal <h followed by a digit 1-6. -/
def hasHtmlHeading : List Char → Bool
  | [] => false
  | c :: rest => (c = '<' && startsHtmlHeading rest) || hasHtmlHeading rest

/-- A closing parenthesis occurs before any newline (the regex dot does not
cross newlines). -/
def seekCloseParen : List Char → Bool
  | [] => false
  | c :: rest => if c = ')' then true else if c = '\n' then false else seekCloseParen rest

/-- After an opening bracket: a closing bracket immediately followed by an
opening parenthesis on the same line, with a closing parenthesis after it on
that line. -/
def seekBracketParen : List Char → Bool
  | ']' :: '(' :: rest => seekCloseParen rest
  | '\n' :: _ => false
  | _ :: rest => seekBracketParen rest
  | [] => false

/-- The markdown-link regex of line 460: bracket, dot star, closing bracket,
opening parenthesis, dot star, closing parenthesis. -/
def hasMdLink : List Char → Bool
  | [] => false
  | '[' :: rest => seekBracketParen rest || hasMdLink rest
  | _ :: rest => hasMdLink rest

/-- Whitespace run (possibly empty) followed by the literal href. -/
def seekHref : List Char → Bool
  | 'h' :: 'r' :: 'e' :: 'f' :: _ => true
  | c :: rest => isJsSpace c && seekHref rest
  | [] => false

/-- The list starts with the letter a, one whitespace character, then an
arbitrary whitespace run and the literal href. -/
def startsAnchorHref : List Char → Bool
  | 'a' :: d :: tail => isJsSpace d && seekHref tail
  | _ => false

/-- The anchor regex of line 460: the literal <a, at least one whitespace
character, then the literal href. -/
def hasAnchorHref : List Char → Bool
  | [] => false
  | c :: rest => (c = '<' && startsAnchorHref rest) || hasAnchorHref rest

/-- Math.max on the exact rationals handled by the scorer. -/
def mathMax (a b : ℚ) : ℚ := if a < b then b else a

/-- Math.min on the exact rationals handled by the scorer. -/
def mathMin (a b : ℚ) : ℚ := if a < b then a else b

/-- hasStructure of calculateScore line 457. -/
def hasStructure (content : String) : Bool :=
  hasHashHeading content.data || hasHtmlHeading content.data

/-- hasLinks of calculateScore line 460. -/
def hasLinks (content : String) : Bool :=
  hasMdLink content.data || hasAnchorHref content.data

/-- Length component of calculateScore (lines 427-432). -/
def lengthComponent (content : String) : ℚ :=
  if content.length < 100 then -20 else mathMin ((content.length : ℚ) / 100) 50

/-- Paragraph-structure component of calculateScore (lines 434-435). -/
def paragraphComponent (content : String) : ℚ :=
  mathMin ((paragraphCount content : ℚ) * 2) 20

/-- Error-signal component of calculateScore (lines 437-450). -/
def errorComponent (content : String) : ℚ :=
  if hasErrors content then -30 else 0

/-- Method-preference component: the four independent if statements of
lines 452-455. -/
def methodComponent (method : String) : ℚ :=
  (if method = "browser" then 5 else 0) + (if method = "http" then 3 else 0) +
  (if method = "ocr" then -5 else 0) + (if method = "document" then 10 else 0)

/-- Markup-structure bonus (lines 457-458). -/
def structureComponent (content : String) : ℚ :=
  if hasStructure content then 10 else 0

/-- Link bonus (lines 460-461). -/
def linkComponent (content : String) : ℚ :=
  if hasLinks content then 5 else 0

/-- WebFetcher.calculateScore (lines 424-464): the components accumulate into
one running score and the returned value is Math.max(0, score). -/
def calculateScore (content : String) (method : String) : ℚ :=
  mathMax 0 (lengthComponent content + paragraphComponent content +
    errorComponent content + methodComponent method +
    structureComponent content + linkComponent content)

/-- mathMax agrees with the lattice maximum. -/
theorem mathMax_eq_max (a b : ℚ) : mathMax a b = max a b := by
  unfold mathMax
  rcases lt_or_ge a b with h | h
  · rw [if_pos h, max_eq_right h.le]
  · rw [if_neg (not_lt.mpr h), max_eq_left h]

/-- mathMin agrees with the lattice minimum. -/
theorem mathMin_eq_min (a b : ℚ) : mathMin a b = min a b := by
  unfold mathMin
  rcases lt_or_ge a b with h | h
  · rw [if_pos h, min_eq_left h.le]
  · rw [if_neg (not_lt.mpr h), min_eq_right h]

/-- One path segment of the GitHub URL regexes: a nonempty run of non-slash
characters (the capturing group) followed by the literal slash.  Returns the
segment and the text after the slash. -/
def takeSeg (cs : List Char) : Option (List Char × List Char) :=
  match cs.takeWhile (fun c => c != '/'), cs.dropWhile (fun c => c != '/') with
  | [], _ => none
  | _, [] => none
  | seg, _ :: r => some (seg, r)

/-- Consume the literal marker from the front of the list. -/
def stripMarker : List Char → List Char → Option (List Char)
  | [], cs => some cs
  | m :: ms, c :: cs => if c = m then stripMarker ms cs else none
  | _ :: _, [] => none

/-- The part of the two processGitHubUrl regexes that follows the literal
github.com/ : two nonempty slash-free segments (owner, repo), the literal
marker blob/ or tree/, a third nonempty slash-free segment (branch) and the
trailing dot-star capture (path), which stops at a newline because the regex
dot does not match newlines. -/
def matchSegments (marker : List Char) (cs : List Char) :
    Option (List Char × List Char × List Char × List Char) := do
  let (owner, cs1) ← takeSeg cs
  let (repo, cs2) ← takeSeg cs1
  let cs3 ← stripMarker marker cs2
  let (branch, cs4) ← takeSeg cs3
  some (owner, repo, branch, cs4.takeWhile (fun c => c != '\n'))

/-- The literal github.com/ that opens both URL regexes. -/
def githubDotCom : List Char := ['g', 'i', 't', 'h', 'u', 'b', '.', 'c', 'o', 'm', '/']

/-- A whole-pattern match attempt at this exact position: the literal
github.com/ then the segments. -/
def matchGithubAt (marker : List Char) (cs : List Char) :
    Option (List Char × List Char × List Char × List Char) :=
  if githubDotCom.isPrefixOf cs then matchSegments marker (cs.drop githubDotCom.length)
  else none

/-- Leftmost match of the unanchored regex: String.prototype.match tries every
position left to right and returns the first full match. -/
def findGithubMatch (marker : List Char) :
    List Char → Option (List Char × List Char × List Char × List Char)
  | [] => none
  | c :: rest =>
    match matchGithubAt marker (c :: rest) with
    | some m => some m
    | none => findGithubMatch marker rest

/-- Marker of the githubBlobPattern (index.ts line 484). -/
def blobMarker : List Char := ['b', 'l', 'o', 'b', '/']

/-- Marker of the githubTreePattern (index.ts line 493). -/
def treeMarker : List Char := ['t', 'r', 'e', 'e', '/']

/-- WebFetcher.processGitHubUrl (lines 482-502): rewrite a GitHub blob URL
into the raw content URL, else rewrite a GitHub tree URL into the contents
API URL, else return the URL unchanged. -/
def processGitHubUrl (url : String) : String :=
  match findGithubMatch blobMarker url.data with
  | some (owner, repo, branch, path) =>
    "https://raw.githubusercontent.com/" ++ String.mk owner ++ "/" ++ String.mk repo ++
      "/" ++ String.mk branch ++ "/" ++ String.mk path
  | none =>
    match findGithubMatch treeMarker url.data with
    | some (owner, repo, branch, path) =>
      "https://api.github.com/repos/" ++ String.mk owner ++ "/" ++ String.mk repo ++
        "/contents/" ++ String.mk path ++ "?ref=" ++ String.mk branch
    | none => url

/-- The extension list of WebFetcher.isDocumentUrl (line 478). -/
def documentExtensions : List (List Char) :=
  [".pdf".data, ".doc".data, ".docx".data, ".pptx".data, ".ppt".data]

/-- WebFetcher.isDocumentUrl (lines 477-480): the lowercased URL contains one
of the extensions as a substring, at any position
(String.prototype.includes). -/
def isDocumentUrl (url : String) : Bool :=
  documentExtensions.any (fun ext => containsChars ext (lowerChars url))

/-- The metadata fields the extractors actually store: rawHtml for http,
http-api and browser results, screenshot for ocr results, fileSize for
document results. -/
structure ResultMetadata where
  rawHtml : Option String := none
  screenshot : Option String := none
  fileSize : Option Nat := none
deriving DecidableEq, Repr

/-- interface ExtractionResult of index.ts (lines 131-136). -/
structure ExtractionResult where
  content : String
  method : String
  score : ℚ
  metadata : Option ResultMetadata := none
deriving DecidableEq, Repr

/-- The raw-return expression result.metadata?.rawHtml || result.content of
lines 168 and 218: optional chaining yields undefined when metadata or its
rawHtml field is absent, and the JavaScript or-else falls back to content on
an empty rawHtml string as well, because the empty string is falsy. -/
def rawOrContent (res : ExtractionResult) : String :=
  match res.metadata with
  | some md =>
    match md.rawHtml with
    | some s => if s = "" then res.content else s
    | none => res.content
  | none => res.content

/-- One stable descending insertion: the inserted element comes from earlier
in the original list than every already-sorted element, so placing it before
the first element of smaller-or-equal score keeps equal scores in original
order. -/
def insertDesc (x : ExtractionResult) : List ExtractionResult → List ExtractionResult
  | [] => [x]
  | y :: ys => if y.score ≤ x.score then x :: y :: ys else y :: insertDesc x ys

/-- The sort call of selectBestResult (line 467): the comparator
(a, b) => b.score - a.score orders by descending score, and
Array.prototype.sort is stable, which this right-fold insertion realizes. -/
def sortDesc (results : List ExtractionResult) : List ExtractionResult :=
  results.foldr insertDesc []

/-- WebFetcher.selectBestResult (lines 466-475): sort descending by score and
return the first element; none on the empty list, where the source would
index out of bounds (the caller guards non-emptiness at line 210). -/
def selectBestResult (results : List ExtractionResult) : Option ExtractionResult :=
  (sortDesc results).head?

/-- Oracle for the asynchronous behaviour of the four extractors and of the
overall timeout during one fetchContent call.  http may throw (the error
case) or produce a result or null; the three parallel extractors appear
after their catch handlers, which turn any failure into null (none);
timedOut tells whether the Promise.race timeout rejected before Promise.all
settled. -/
structure ExtractorOutcomes where
  http : Except Unit (Option ExtractionResult)
  browser : Option ExtractionResult
  document : Option ExtractionResult
  ocr : Option ExtractionResult
  timedOut : Bool

/-- The results list collected from the settled extraction promises
(lines 174-208): Promise.all preserves the order browser, document slot,
ocr.  The document slot holds the literal null unless isDocumentUrl accepted
the processed URL (lines 182-186).  The ocr promise is always pushed, because
the results array is still empty at the line 190 length check (nothing is
pushed into it before that line).  The forEach of line 206 keeps exactly the
non-null outcomes, in promise order. -/
def collectedResults (processedUrl : String) (o : ExtractorOutcomes) :
    List ExtractionResult :=
  [o.browser, if isDocumentUrl processedUrl then o.document else none, o.ocr].filterMap id

/-- The parallel phase of fetchContent (lines 174-221): the race against the
timeout, the empty-results failure, then the best result, returned as raw
payload or markdown per the raw flag. -/
def parallelPhase (processedUrl : String) (raw : Bool) (o : ExtractorOutcomes) :
    Except String String :=
  if o.timedOut then .error "Extraction timeout"
  else
    let results := collectedResults processedUrl o
    if results.isEmpty then .error "All extraction methods failed"
    else
      match selectBestResult results with
      | some best => .ok (if raw then rawOrContent best else best.content)
      | none => .error "All extraction methods failed"

/-- WebFetcher.fetchContent (lines 155-222) over the outcome oracle: process
the GitHub URL once, try the awaited HTTP fast path (threshold score > 50,
lines 163-172; a thrown HTTP error is only logged), otherwise fall into the
parallel phase. -/
def fetchContent (url : String) (raw : Bool) (o : ExtractorOutcomes) :
    Except String String :=
  let processedUrl := processGitHubUrl url
  match o.http with
  | .ok (some httpResult) =>
    if httpResult.score > 50 then
      .ok (if raw then rawOrContent httpResult else httpResult.content)
    else parallelPhase processedUrl raw o
  | _ => parallelPhase processedUrl raw o

/-- The fast path returned and the parallel phase is never reached. -/
def fastPathTaken (o : ExtractorOutcomes) : Bool :=
  match o.http with
  | .ok (some httpResult) => httpResult.score > 50
  | _ => false

/-- Which of the three non-HTTP extractors a call launches. -/
structure LaunchedSet where
  browser : Bool
  document : Bool
  ocr : Bool
deriving DecidableEq, Repr

/-- Derived instrumentation of lines 177-197: the fast path launches no other
extractor; the parallel phase always launches browser and — because the
results array is necessarily empty at the line 190 check — always launches
ocr, and launches document exactly when isDocumentUrl accepts the processed
URL. -/
def launchedExtractors (url : String) (o : ExtractorOutcomes) : LaunchedSet :=
  if fastPathTaken o then ⟨false, false, false⟩
  else ⟨true, isDocumentUrl (processGitHubUrl url), true⟩

/-- The ExtractionResult whose content or raw payload a fetchContent call
returns, when the call succeeds. -/
def fetchWinner (url : String) (o : ExtractorOutcomes) : Option ExtractionResult :=
  let processedUrl := processGitHubUrl url
  match o.http with
  | .ok (some httpResult) =>
    if httpResult.score > 50 then some httpResult
    else if o.timedOut then none
    else selectBestResult (collectedResults processedUrl o)
  | _ =>
    if o.timedOut then none
    else selectBestResult (collectedResults processedUrl o)

/-- Oracle for a successful download and for the external parsers inside
extractDocument: the downloaded buffer (its UTF-8 decoding and its byte
length) and the outcomes of the pdf2json parse (which can reject) and of the
mammoth raw-text extraction. -/
structure DocumentFetch where
  bufferUtf8 : String
  bufferLength : Nat
  pdfText : Except String String
  docxText : String

/-- WebFetcher.extractDocument (lines 388-422) over the download oracle: the
content starts as the empty string and only the pdf, docx and doc branches
assign it, so a URL matching none of the three substrings (for example a pptx
or ppt URL) keeps the empty content; the pdf branch propagates the parser
rejection. -/
def extractDocument (url : String) (dl : DocumentFetch) :
    Except String ExtractionResult :=
  let mk : String → ExtractionResult := fun content =>
    ⟨content, "document", calculateScore content "document",
      some { fileSize := some dl.bufferLength }⟩
  if containsChars ".pdf".data (lowerChars url) then
    match dl.pdfText with
    | .error e => .error e
    | .ok text => .ok (mk text)
  else if containsChars ".docx".data (lowerChars url) then .ok (mk dl.docxText)
  else if containsChars ".doc".data (lowerChars url) then .ok (mk dl.bufferUtf8)
  else .ok (mk "")

/-- String append acts as list append on the character data. -/
theorem data_append (s t : String) : (s ++ t).data = s.data ++ t.data := rfl

/-- A list that avoids a character is untouched by takeWhile on it. -/
theorem takeWhile_ne_of_not_mem (x : Char) :
    ∀ l : List Char, x ∉ l → l.takeWhile (fun c => c != x) = l
  | [], _ => rfl
  | a :: as, h => by
    have ha : (a != x) = true := by
      simp only [bne_iff_ne, ne_eq]
      exact fun hax => h (hax ▸ List.mem_cons_self a as)
    have hx : x ∉ as := fun hm => h (List.mem_cons_of_mem a hm)
    simp [List.takeWhile_cons, ha, takeWhile_ne_of_not_mem x as hx]

/-- takeWhile and dropWhile at the first slash of a slash-free prefix. -/
theorem takeWhile_slash_append : ∀ seg rest : List Char, '/' ∉ seg →
    (seg ++ '/' :: rest).takeWhile (fun c => c != '/') = seg ∧
    (seg ++ '/' :: rest).dropWhile (fun c => c != '/') = '/' :: rest
  | [], rest, _ => by simp
  | a :: as, rest, h => by
    have ha : (a != '/') = true := by
      simp only [bne_iff_ne, ne_eq]
      exact fun hax => h (hax ▸ List.mem_cons_self a as)
    have h2 := takeWhile_slash_append as rest (fun hm => h (List.mem_cons_of_mem a hm))
    simp [List.takeWhile_cons, List.dropWhile_cons, ha, h2.1, h2.2]

/-- takeSeg recognizes a nonempty slash-free segment before a slash. -/
theorem takeSeg_append (seg rest : List Char) (hne : seg ≠ []) (hs : '/' ∉ seg) :
    takeSeg (seg ++ '/' :: rest) = some (seg, rest) := by
  cases seg with
  | nil => exact absurd rfl hne
  | cons a as =>
    obtain ⟨tw, dw⟩ := takeWhile_slash_append (a :: as) rest hs
    simp only [List.cons_append] at tw dw ⊢
    unfold takeSeg
    rw [tw, dw]

/-- stripMarker removes exactly the marker it is given. -/
theorem stripMarker_append : ∀ m rest : List Char, stripMarker m (m ++ rest) = some rest
  | [], _ => rfl
  | c :: ms, rest => by simp [stripMarker, stripMarker_append ms rest]

/-- matchSegments succeeds on a well-shaped owner/repo/marker/branch/path
tail whose segments are nonempty and slash-free and whose path has no
newline. -/
theorem matchSegments_append (marker o r b p : List Char)
    (ho : o ≠ []) (ho2 : '/' ∉ o) (hr : r ≠ []) (hr2 : '/' ∉ r)
    (hb : b ≠ []) (hb2 : '/' ∉ b) (hp : '\n' ∉ p) :
    matchSegments marker (o ++ '/' :: (r ++ '/' :: (marker ++ (b ++ '/' :: p)))) =
      some (o, r, b, p) := by
  simp [matchSegments, takeSeg_append o _ ho ho2, takeSeg_append r _ hr hr2,
    stripMarker_append, takeSeg_append b _ hb hb2, takeWhile_ne_of_not_mem '\n' p hp]

/-- A list is a Boolean prefix of itself followed by anything. -/
theorem isPrefixOf_append_self : ∀ l t : List Char, l.isPrefixOf (l ++ t) = true
  | [], _ => by simp [List.isPrefixOf]
  | a :: as, t => by simp [List.isPrefixOf, isPrefixOf_append_self as t]

/-- A position that carries the literal github.com/ matches via the
segments. -/
theorem matchGithubAt_append (marker tail : List Char) :
    matchGithubAt marker (githubDotCom ++ tail) = matchSegments marker tail := by
  simp [matchGithubAt, isPrefixOf_append_self, List.drop_left]

/-- A position that does not start with the letter g cannot match. -/
theorem matchGithubAt_cons_ne (marker : List Char) (c : Char) (rest : List Char)
    (h : c ≠ 'g') : matchGithubAt marker (c :: rest) = none := by
  have hpre : githubDotCom.isPrefixOf (c :: rest) = false := by
    cases hgc : ('g' == c) with
    | false => simp [githubDotCom, List.isPrefixOf, hgc]
    | true => exact absurd (beq_iff_eq.mp hgc).symm h
  simp [matchGithubAt, hpre]

/-- The scan skips a position that does not start with the letter g. -/
theorem findGithubMatch_cons_ne (marker : List Char) (c : Char) (rest : List Char)
    (h : c ≠ 'g') : findGithubMatch marker (c :: rest) = findGithubMatch marker rest := by
  simp [findGithubMatch, matchGithubAt_cons_ne marker c rest h]

/-- The scan returns the match found at the current position. -/
theorem findGithubMatch_here (marker tail : List Char)
    (res : List Char × List Char × List Char × List Char)
    (hm : matchSegments marker tail = some res) :
    findGithubMatch marker (githubDotCom ++ tail) = some res := by
  have h1 : githubDotCom ++ tail =
      'g' :: (['i', 't', 'h', 'u', 'b', '.', 'c', 'o', 'm', '/'] ++ tail) := rfl
  rw [h1, findGithubMatch]
  have h2 : matchGithubAt marker
      ('g' :: (['i', 't', 'h', 'u', 'b', '.', 'c', 'o', 'm', '/'] ++ tail)) = some res := by
    rw [← h1, matchGithubAt_append, hm]
  rw [h2]

/-- A string other than the empty one has nonempty character data. -/
theorem data_ne_nil_of_ne_empty (s : String) (h : s ≠ "") : s.data ≠ [] := by
  intro hd
  apply h
  cases s with
  | mk d =>
    have hd2 : d = [] := hd
    subst hd2
    rfl

/-- A URL matching neither pattern passes through processGitHubUrl
unchanged. -/
theorem processGitHubUrl_no_match (url : String)
    (h1 : findGithubMatch blobMarker url.data = none)
    (h2 : findGithubMatch treeMarker url.data = none) :
    processGitHubUrl url = url := by
  simp [processGitHubUrl, h1, h2]

/-- The blob rewrite on a well-formed GitHub blob URL. -/
theorem processGitHubUrl_blob (o r b p : String)
    (ho : o ≠ "") (hr : r ≠ "") (hb : b ≠ "")
    (ho2 : '/' ∉ o.data) (hr2 : '/' ∉ r.data) (hb2 : '/' ∉ b.data)
    (hp : '\n' ∉ p.data) :
    processGitHubUrl ("https://github.com/" ++ o ++ "/" ++ r ++ "/blob/" ++ b ++ "/" ++ p) =
      "https://raw.githubusercontent.com/" ++ o ++ "/" ++ r ++ "/" ++ b ++ "/" ++ p := by
  have hod := data_ne_nil_of_ne_empty o ho
  have hrd := data_ne_nil_of_ne_empty r hr
  have hbd := data_ne_nil_of_ne_empty b hb
  have e1 : ("https://github.com/" : String).data =
      'h' :: 't' :: 't' :: 'p' :: 's' :: ':' :: '/' :: '/' :: githubDotCom := rfl
  have e2 : ("/" : String).data = ['/'] := rfl
  have e3 : ("/blob/" : String).data = '/' :: blobMarker := rfl
  have hurl : ("https://github.com/" ++ o ++ "/" ++ r ++ "/blob/" ++ b ++ "/" ++ p).data =
      'h' :: 't' :: 't' :: 'p' :: 's' :: ':' :: '/' :: '/' ::
        (githubDotCom ++
          (o.data ++ '/' :: (r.data ++ '/' :: (blobMarker ++ (b.data ++ '/' :: p.data))))) := by
    simp [data_append, e1, e2, e3, List.append_assoc, githubDotCom, blobMarker]
  have hfind : findGithubMatch blobMarker
      ("https://github.com/" ++ o ++ "/" ++ r ++ "/blob/" ++ b ++ "/" ++ p).data =
      some (o.data, r.data, b.data, p.data) := by
    rw [hurl]
    rw [findGithubMatch_cons_ne _ _ _ (by decide)]
    rw [findGithubMatch_cons_ne _ _ _ (by decide)]
    rw [findGithubMatch_cons_ne _ _ _ (by decide)]
    rw [findGithubMatch_cons_ne _ _ _ (by decide)]
    rw [findGithubMatch_cons_ne _ _ _ (by decide)]
    rw [findGithubMatch_cons_ne _ _ _ (by decide)]
    rw [findGithubMatch_cons_ne _ _ _ (by decide)]
    rw [findGithubMatch_cons_ne _ _ _ (by decide)]
    exact findGithubMatch_here _ _ _
      (matchSegments_append blobMarker o.data r.data b.data p.data hod ho2 hrd hr2 hbd hb2 hp)
  rw [processGitHubUrl, hfind]

/-- The first maximum-score element of a list, computed from the right: the
head wins ties against any maximum of the tail. -/
def firstArgmax : List ExtractionResult → Option ExtractionResult
  | [] => none
  | x :: l =>
    match firstArgmax l with
    | none => some x
    | some m => some (if m.score ≤ x.score then x else m)

/-- The head after one stable descending insertion. -/
theorem head_insertDesc (x : ExtractionResult) (l : List ExtractionResult) :
    (insertDesc x l).head? =
      some (match l.head? with
            | none => x
            | some y => if y.score ≤ x.score then x else y) := by
  cases l with
  | nil => rfl
  | cons y ys =>
    by_cases h : y.score ≤ x.score
    · simp [insertDesc, h]
    · simp [insertDesc, h]

/-- The head of the stable descending sort is the first maximum. -/
theorem head_sortDesc : ∀ l : List ExtractionResult, (sortDesc l).head? = firstArgmax l
  | [] => rfl
  | x :: l => by
    have ih := head_sortDesc l
    show (insertDesc x (sortDesc l)).head? = _
    rw [head_insertDesc, firstArgmax, ← ih]
    cases (sortDesc l).head? <;> rfl

/-- firstArgmax returns an element that maximizes the score and is preceded
only by elements of strictly smaller score. -/
theorem firstArgmax_spec : ∀ (l : List ExtractionResult) (x : ExtractionResult),
    firstArgmax l = some x →
    ∃ pre post, l = pre ++ x :: post ∧ (∀ res ∈ l, res.score ≤ x.score) ∧
      ∀ res ∈ pre, res.score < x.score
  | [], x, h => by simp [firstArgmax] at h
  | a :: l, x, h => by
    cases hl : firstArgmax l with
    | none =>
      have hx : a = x := by
        rw [firstArgmax, hl] at h
        exact Option.some.inj h
      have hle : l = [] := by
        cases l with
        | nil => rfl
        | cons b m =>
          rw [firstArgmax] at hl
          cases h2 : firstArgmax m with
          | none => rw [h2] at hl; cases hl
          | some mm => rw [h2] at hl; cases hl
      subst hle
      subst hx
      exact ⟨[], [], rfl, by simp, by simp⟩
    | some m =>
      rw [firstArgmax, hl] at h
      have hx := Option.some.inj h
      obtain ⟨pre, post, hsplit, hall, hpre⟩ := firstArgmax_spec l m hl
      by_cases hc : m.score ≤ a.score
      · rw [if_pos hc] at hx
        subst hx
        refine ⟨[], l, rfl, ?_, by simp⟩
        intro res hres
        rcases List.mem_cons.mp hres with hres | hres
        · rw [hres]
        · exact (hall res hres).trans hc
      · rw [if_neg hc] at hx
        subst hx
        have hlt := lt_of_not_le hc
        refine ⟨a :: pre, post, by rw [hsplit]; rfl, ?_, ?_⟩
        · intro res hres
          rcases List.mem_cons.mp hres with hres | hres
          · rw [hres]; exact le_of_lt hlt
          · exact hall res hres
        · intro res hres
          rcases List.mem_cons.mp hres with hres | hres
          · rw [hres]; exact hlt
          · exact hpre res hres

/-- selectBestResult computes the first maximum. -/
theorem selectBestResult_eq_firstArgmax (l : List ExtractionResult) :
    selectBestResult l = firstArgmax l := by
  rw [selectBestResult, head_sortDesc]

/-- selectBestResult succeeds on a nonempty list. -/
theorem selectBestResult_cons (a : ExtractionResult) (l : List ExtractionResult) :
    ∃ x, selectBestResult (a :: l) = some x := by
  rw [selectBestResult_eq_firstArgmax, firstArgmax]
  cases firstArgmax l with
  | none => exact ⟨a, rfl⟩
  | some m => exact ⟨if m.score ≤ a.score then a else m, rfl⟩

/-- The selected result maximizes the score over the list, and only elements
of strictly smaller score precede it. -/
theorem selectBestResult_spec (l : List ExtractionResult) (x : ExtractionResult)
    (h : selectBestResult l = some x) :
    ∃ pre post, l = pre ++ x :: post ∧ (∀ res ∈ l, res.score ≤ x.score) ∧
      ∀ res ∈ pre, res.score < x.score := by
  rw [selectBestResult_eq_firstArgmax] at h
  exact firstArgmax_spec l x h

/-- When the fast path does not fire, fetchContent runs the parallel phase. -/
theorem fetchContent_parallel (url : String) (raw : Bool) (o : ExtractorOutcomes)
    (hfast : fastPathTaken o = false) :
    fetchContent url raw o = parallelPhase (processGitHubUrl url) raw o := by
  cases hh : o.http with
  | error e => simp [fetchContent, hh]
  | ok v =>
    cases v with
    | none => simp [fetchContent, hh]
    | some httpResult =>
      have hs : ¬ httpResult.score > 50 := by
        simpa [fastPathTaken, hh] using hfast
      simp [fetchContent, hh, hs]

/-- When the fast path does not fire, the winner is the parallel-phase
selection. -/
theorem fetchWinner_parallel (url : String) (o : ExtractorOutcomes)
    (hfast : fastPathTaken o = false) :
    fetchWinner url o =
      if o.timedOut then none
      else selectBestResult (collectedResults (processGitHubUrl url) o) := by
  cases hh : o.http with
  | error e => simp [fetchWinner, hh]
  | ok v =>
    cases v with
    | none => simp [fetchWinner, hh]
    | some httpResult =>
      have hs : ¬ httpResult.score > 50 := by
        simpa [fastPathTaken, hh] using hfast
      simp [fetchWinner, hh, hs]

/-- The parallel phase returns the selected best result. -/
theorem parallelPhase_ok (processedUrl : String) (raw : Bool) (o : ExtractorOutcomes)
    (ht : o.timedOut = false) (best : ExtractionResult)
    (hbest : selectBestResult (collectedResults processedUrl o) = some best) :
    parallelPhase processedUrl raw o = .ok (if raw then rawOrContent best else best.content) := by
  have hne : (collectedResults processedUrl o).isEmpty = false := by
    cases hc : collectedResults processedUrl o with
    | nil => rw [hc] at hbest; simp [selectBestResult, sortDesc] at hbest
    | cons a l => rfl
  simp [parallelPhase, ht, hne, hbest]

/-- A fetchContent call returns the content (or raw payload) of its
winner. -/
theorem fetchContent_of_winner (url : String) (raw : Bool) (o : ExtractorOutcomes)
    (best : ExtractionResult) (h : fetchWinner url o = some best) :
    fetchContent url raw o = .ok (if raw then rawOrContent best else best.content) := by
  cases hfast : fastPathTaken o with
  | false =>
    rw [fetchWinner_parallel url o hfast] at h
    cases ht : o.timedOut with
    | true => rw [ht] at h; simp at h
    | false =>
      rw [ht] at h
      simp only [Bool.false_eq_true, if_false] at h
      rw [fetchContent_parallel url raw o hfast]
      exact parallelPhase_ok _ raw o ht best h
  | true =>
    obtain ⟨r, hh, hs⟩ : ∃ r, o.http = .ok (some r) ∧ r.score > 50 := by
      cases hh : o.http with
      | error e => simp [fastPathTaken, hh] at hfast
      | ok v =>
        cases v with
        | none => simp [fastPathTaken, hh] at hfast
        | some r => exact ⟨r, rfl, by simpa [fastPathTaken, hh] using hfast⟩
    have hbr : r = best := by
      simpa [fetchWinner, hh, hs] using h
    subst hbr
    simp [fetchContent, hh, hs]

/-- calculateScore as a lattice maximum of zero and the component sum. -/
theorem calculateScore_eq_max (content method : String) :
    calculateScore content method =
      max 0 (lengthComponent content + paragraphComponent content +
        errorComponent content + methodComponent method +
        structureComponent content + linkComponent content) := by
  rw [calculateScore, mathMax_eq_max]

/-- The method bonus of the document tag. -/
theorem methodComponent_document : methodComponent "document" = 10 := by
  simp [methodComponent]

/-- The method penalty of the ocr tag. -/
theorem methodComponent_ocr : methodComponent "ocr" = -5 := by
  simp [methodComponent]

/-- The length component is capped at 50. -/
theorem lengthComponent_le (content : String) : lengthComponent content ≤ 50 := by
  rw [lengthComponent]
  split
  · norm_num
  · rw [mathMin_eq_min]
    exact min_le_right _ _

/-- The paragraph component is capped at 20. -/
theorem paragraphComponent_le (content : String) : paragraphComponent content ≤ 20 := by
  rw [paragraphComponent, mathMin_eq_min]
  exact min_le_right _ _

/-- The error component never adds points. -/
theorem errorComponent_le (content : String) : errorComponent content ≤ 0 := by
  rw [errorComponent]
  split <;> norm_num

/-- The method bonus of the browser tag. -/
theorem methodComponent_browser : methodComponent "browser" = 5 := by
  simp [methodComponent]

/-- The method bonus of the http tag. -/
theorem methodComponent_http : methodComponent "http" = 3 := by
  simp [methodComponent]

/-- Any other method tag gets no bonus. -/
theorem methodComponent_other (method : String) (h1 : method ≠ "browser")
    (h2 : method ≠ "http") (h3 : method ≠ "ocr") (h4 : method ≠ "document") :
    methodComponent method = 0 := by
  simp [methodComponent, h1, h2, h3, h4]

/-- The method component is at most the document bonus of 10: a method tag is
a single string, so at most one of the four bonuses applies. -/
theorem methodComponent_le (method : String) : methodComponent method ≤ 10 := by
  by_cases h1 : method = "browser"
  · rw [h1, methodComponent_browser]; norm_num
  · by_cases h2 : method = "http"
    · rw [h2, methodComponent_http]; norm_num
    · by_cases h3 : method = "ocr"
      · rw [h3, methodComponent_ocr]; norm_num
      · by_cases h4 : method = "document"
        · rw [h4, methodComponent_document]
        · rw [methodComponent_other method h1 h2 h3 h4]; norm_num

/-- The empty content scores 0 with the document tag: the short-content
penalty of -20 outweighs the document bonus of 10 and the floor applies. -/
theorem calculateScore_empty_document : calculateScore "" "document" = 0 := by
  have h1 : paragraphCount "" = 0 := by decide
  have h2 : hasErrors "" = false := by decide
  have h3 : hasStructure "" = false := by decide
  have h4 : hasLinks "" = false := by decide
  have h5 : ("" : String).length = 0 := rfl
  rw [calculateScore, lengthComponent, paragraphComponent, errorComponent,
    structureComponent, linkComponent, methodComponent_document, h1, h2, h3, h4, h5]
  norm_num [mathMax, mathMin]

/-- The empty content scores 0 with the ocr tag as well. -/
theorem calculateScore_empty_ocr : calculateScore "" "ocr" = 0 := by
  have h1 : paragraphCount "" = 0 := by decide
  have h2 : hasErrors "" = false := by decide
  have h3 : hasStructure "" = false := by decide
  have h4 : hasLinks "" = false := by decide
  have h5 : ("" : String).length = 0 := rfl
  rw [calculateScore, lengthComponent, paragraphComponent, errorComponent,
    structureComponent, linkComponent, methodComponent_ocr, h1, h2, h3, h4, h5]
  norm_num [mathMax, mathMin]

/-- C2: for every content string and every method tag, the scorer returns a
value greater than or equal to 0 — the final score is floored at 0 and is
never negative. -/
theorem calculateScore_nonneg (content method : String) :
    0 ≤ calculateScore content method := by
  rw [calculateScore_eq_max]
  exact le_max_left _ _

/-- C10: for every content string and every method tag the scorer is bounded
by 95: the additive components are capped at 50 (length), 20 (paragraphs),
0 (error penalty), 10 (best method bonus, document), 10 (heading bonus) and
5 (link bonus). -/
theorem calculateScore_le_95 (content method : String) :
    calculateScore content method ≤ 95 := by
  rw [calculateScore_eq_max]
  refine max_le (by norm_num) ?_
  have h1 := lengthComponent_le content
  have h2 := paragraphComponent_le content
  have h3 := errorComponent_le content
  have h4 := methodComponent_le method
  have h5 : structureComponent content ≤ 10 := by
    rw [structureComponent]; split <;> norm_num
  have h6 : linkComponent content ≤ 5 := by
    rw [linkComponent]; split <;> norm_num
  linarith

/-- C3 counterexample: on the empty content both the document score and the
ocr score are floored to 0, so the document score is not strictly greater. -/
theorem calculateScore_document_not_gt_ocr_on_empty :
    ¬ calculateScore "" "ocr" < calculateScore "" "document" := by
  rw [calculateScore_empty_document, calculateScore_empty_ocr]
  exact lt_irrefl 0

/-- C3 (amended): on identical content the document score is always at least
the ocr score, and whenever the ocr score is not floored away (it is
positive) the document score exceeds it by exactly 15; when the unfloored
score is low enough both floor to 0 and the strict gap disappears. -/
theorem calculateScore_document_vs_ocr (c : String) :
    calculateScore c "ocr" ≤ calculateScore c "document" ∧
    (0 < calculateScore c "ocr" →
      calculateScore c "document" = calculateScore c "ocr" + 15) := by
  have hdoc : calculateScore c "document" =
      max 0 ((lengthComponent c + paragraphComponent c + errorComponent c +
        structureComponent c + linkComponent c) + 10) := by
    rw [calculateScore_eq_max, methodComponent_document]
    congr 1
    ring
  have hocr : calculateScore c "ocr" =
      max 0 ((lengthComponent c + paragraphComponent c + errorComponent c +
        structureComponent c + linkComponent c) - 5) := by
    rw [calculateScore_eq_max, methodComponent_ocr]
    congr 1
    ring
  rw [hdoc, hocr]
  set B := lengthComponent c + paragraphComponent c + errorComponent c +
    structureComponent c + linkComponent c with hB
  constructor
  · exact max_le_max le_rfl (by linarith)
  · intro h
    have hB5 : 0 < B - 5 := by
      by_contra hc
      push_neg at hc
      rw [max_eq_left hc] at h
      exact lt_irrefl 0 h
    rw [max_eq_right (le_of_lt hB5), max_eq_right (by linarith : (0:ℚ) ≤ B + 10)]
    ring

/-- A 122-character heading-shaped content whose ocr score is positive. -/
def sampleA : String := "# aaaaaaaaaaaaaaaaaaaaaaaaaaaaaaaaaaaaaaaaaaaaaaaaaaaaaaaaaaaaaaaaaaaaaaaaaaaaaaaaaaaaaaaaaaaaaaaaaaaaaaaaaaaaaaaaaaaaaaaa"

set_option maxRecDepth 4000 in
/-- Witness for C3: on a concrete content with positive ocr score the
document score is exactly the ocr score plus 15. -/
theorem calculateScore_document_vs_ocr_witness :
    0 < calculateScore sampleA "ocr" ∧
    calculateScore sampleA "document" = calculateScore sampleA "ocr" + 15 := by
  have hlen : sampleA.length = 122 := by decide
  have h1 : paragraphCount sampleA = 1 := by decide
  have h2 : hasErrors sampleA = false := by decide
  have h3 : hasStructure sampleA = true := by decide
  have h4 : hasLinks sampleA = false := by decide
  have hpos : 0 < calculateScore sampleA "ocr" := by
    rw [calculateScore, lengthComponent, paragraphComponent, errorComponent,
      structureComponent, linkComponent, methodComponent_ocr, hlen, h1, h2, h3, h4]
    norm_num [mathMax, mathMin]
  exact ⟨hpos, (calculateScore_document_vs_ocr sampleA).2 hpos⟩

/-- C4 (amended): the normalizer maps a blob-shaped GitHub URL with slash-free
nonempty owner, repo and branch and newline-free path to the raw-content URL
for the same owner/repo/branch/path; a URL matching neither the blob nor the
tree pattern is returned unchanged; and normalizing twice equals normalizing
once for every URL whose normalized form again matches neither pattern — full
idempotence fails when the rewritten URL embeds another github.com blob or
tree shape inside its path. -/
theorem processGitHubUrl_spec :
    (∀ o r b p : String, o ≠ "" → r ≠ "" → b ≠ "" →
      '/' ∉ o.data → '/' ∉ r.data → '/' ∉ b.data → '\n' ∉ p.data →
      processGitHubUrl ("https://github.com/" ++ o ++ "/" ++ r ++ "/blob/" ++ b ++ "/" ++ p) =
        "https://raw.githubusercontent.com/" ++ o ++ "/" ++ r ++ "/" ++ b ++ "/" ++ p) ∧
    (∀ url : String, findGithubMatch blobMarker url.data = none →
      findGithubMatch treeMarker url.data = none → processGitHubUrl url = url) ∧
    (∀ url : String, findGithubMatch blobMarker (processGitHubUrl url).data = none →
      findGithubMatch treeMarker (processGitHubUrl url).data = none →
      processGitHubUrl (processGitHubUrl url) = processGitHubUrl url) :=
  ⟨processGitHubUrl_blob, processGitHubUrl_no_match,
   fun _ h1 h2 => processGitHubUrl_no_match _ h1 h2⟩

/-- C4 counterexample: normalizing is not idempotent on every URL — a blob URL
whose path embeds a second github.com blob shape is rewritten again by the
second pass. -/
theorem processGitHubUrl_not_idempotent :
    processGitHubUrl
        (processGitHubUrl "https://github.com/a/b/blob/c/github.com/d/e/blob/f/g") ≠
      processGitHubUrl "https://github.com/a/b/blob/c/github.com/d/e/blob/f/g" := by
  decide

/-- Witness for C4 on concrete URLs: the blob rewrite, the unchanged
non-matching URL and the restricted idempotence. -/
theorem processGitHubUrl_spec_witness :
    processGitHubUrl
        ("https://github.com/" ++ "octo" ++ "/" ++ "repo" ++ "/blob/" ++ "main" ++ "/" ++ "docs/a.md") =
      "https://raw.githubusercontent.com/" ++ "octo" ++ "/" ++ "repo" ++ "/" ++ "main" ++ "/" ++ "docs/a.md" ∧
    processGitHubUrl "https://example.com/page" = "https://example.com/page" ∧
    processGitHubUrl (processGitHubUrl "https://example.com/page") =
      processGitHubUrl "https://example.com/page" :=
  ⟨processGitHubUrl_spec.1 "octo" "repo" "main" "docs/a.md" (by decide) (by decide)
      (by decide) (by decide) (by decide) (by decide) (by decide),
   processGitHubUrl_spec.2.1 "https://example.com/page" (by decide) (by decide),
   processGitHubUrl_spec.2.2 "https://example.com/page" (by decide) (by decide)⟩

/-- C1: a fetchContent call that reaches the parallel phase (the fast path
did not return) and collects a nonempty list of completed non-null results
returns the maximum-score result to the caller, ties broken in favor of the
result appearing first in collection order: the collected list splits as
pre ++ best :: post where every collected score is at most best's, everything
before best scores strictly less, and the call returns best's content (or raw
payload). -/
theorem fetchContent_parallel_selects_first_max (url : String) (raw : Bool)
    (o : ExtractorOutcomes) (hfast : fastPathTaken o = false) (ht : o.timedOut = false)
    (hne : collectedResults (processGitHubUrl url) o ≠ []) :
    ∃ best pre post,
      collectedResults (processGitHubUrl url) o = pre ++ best :: post ∧
      (∀ res ∈ collectedResults (processGitHubUrl url) o, res.score ≤ best.score) ∧
      (∀ res ∈ pre, res.score < best.score) ∧
      fetchContent url raw o = .ok (if raw then rawOrContent best else best.content) := by
  obtain ⟨a, l, hl⟩ : ∃ a l, collectedResults (processGitHubUrl url) o = a :: l := by
    cases hc : collectedResults (processGitHubUrl url) o with
    | nil => exact absurd hc hne
    | cons a l => exact ⟨a, l, rfl⟩
  obtain ⟨best, hbest⟩ :
      ∃ x, selectBestResult (collectedResults (processGitHubUrl url) o) = some x := by
    rw [hl]
    exact selectBestResult_cons a l
  obtain ⟨pre, post, hsplit, hall, hpre⟩ := selectBestResult_spec _ best hbest
  refine ⟨best, pre, post, hsplit, hall, hpre, ?_⟩
  rw [fetchContent_parallel url raw o hfast]
  exact parallelPhase_ok _ raw o ht best hbest

/-- Browser-phase fixture scoring 30. -/
def browserSample : ExtractionResult :=
  ⟨"browser md", "browser", 30, some { rawHtml := some "<p>page</p>" }⟩

/-- Document-phase fixture scoring 85. -/
def documentSample : ExtractionResult :=
  ⟨"document text", "document", 85, some { fileSize := some 9 }⟩

/-- OCR-phase fixture scoring 60. -/
def ocrSample : ExtractionResult :=
  ⟨"ocr text", "ocr", 60, some { screenshot := some "SHOT" }⟩

/-- A parallel race where the fast path fails and all three extractors
complete with scores 30, 85 and 60. -/
def oRace : ExtractorOutcomes :=
  ⟨.error (), some browserSample, some documentSample, some ocrSample, false⟩

/-- Witness for C1 at the concrete score profile 30, 85, 60. -/
theorem fetchContent_parallel_selects_first_max_witness :
    ∃ best pre post,
      collectedResults (processGitHubUrl "https://x.com/file.pdf") oRace =
        pre ++ best :: post ∧
      (∀ res ∈ collectedResults (processGitHubUrl "https://x.com/file.pdf") oRace,
        res.score ≤ best.score) ∧
      (∀ res ∈ pre, res.score < best.score) ∧
      fetchContent "https://x.com/file.pdf" false oRace =
        .ok (if false then rawOrContent best else best.content) :=
  fetchContent_parallel_selects_first_max "https://x.com/file.pdf" false oRace
    rfl rfl (by decide)

/-- C5: a fast-path HTTP result scoring strictly above 50 is returned
immediately — raw payload or markdown per the raw flag — and no other
extractor (browser, document or ocr) is launched. -/
theorem fetchContent_fast_path (url : String) (raw : Bool) (o : ExtractorOutcomes)
    (r : ExtractionResult) (hh : o.http = .ok (some r)) (hs : r.score > 50) :
    fetchContent url raw o = .ok (if raw then rawOrContent r else r.content) ∧
    launchedExtractors url o = ⟨false, false, false⟩ := by
  constructor
  · simp [fetchContent, hh, hs]
  · have hf : fastPathTaken o = true := by simp [fastPathTaken, hh, hs]
    simp [launchedExtractors, hf]

/-- HTTP fast-path fixture scoring 60 with a raw HTML payload. -/
def httpSample : ExtractionResult :=
  ⟨"markdown body", "http", 60, some { rawHtml := some "<p>HTML</p>" }⟩

/-- An outcome set where the HTTP fast path succeeds. -/
def oFast : ExtractorOutcomes := ⟨.ok (some httpSample), none, none, none, false⟩

/-- Witness for C5 at a concrete fast-path result. -/
theorem fetchContent_fast_path_witness :
    fetchContent "https://example.com/page" true oFast =
      .ok (if true then rawOrContent httpSample else httpSample.content) ∧
    launchedExtractors "https://example.com/page" oFast = ⟨false, false, false⟩ :=
  fetchContent_fast_path "https://example.com/page" true oFast httpSample rfl (by decide)

/-- C6 (amended): a fetchContent call with raw true whose winning result
carries a non-empty rawHtml payload X in its metadata returns exactly X.
The source consults only the rawHtml field — OCR winners, whose metadata
stores the screenshot under a different key, and empty rawHtml payloads fall
back to the normalized content. -/
theorem fetchContent_raw_returns_rawHtml (url : String) (o : ExtractorOutcomes)
    (best : ExtractionResult) (md : ResultMetadata) (X : String)
    (hw : fetchWinner url o = some best) (hmd : best.metadata = some md)
    (hraw : md.rawHtml = some X) (hne : X ≠ "") :
    fetchContent url true o = .ok X := by
  rw [fetchContent_of_winner url true o best hw]
  simp [rawOrContent, hmd, hraw, hne]

/-- OCR winner fixture whose metadata holds only the screenshot payload. -/
def ocrShot : ExtractionResult :=
  ⟨"TEXT", "ocr", calculateScore "TEXT" "ocr", some { screenshot := some "IMG" }⟩

/-- An outcome set whose only completed extractor is the ocr fixture. -/
def oOcrShot : ExtractorOutcomes := ⟨.error (), none, none, some ocrShot, false⟩

/-- C6 counterexample: with raw true and an ocr winner carrying the raw
screenshot payload IMG in its metadata, the call returns the ocr text
content, not IMG — the raw lookup reads only the rawHtml field. -/
theorem fetchContent_raw_ocr_returns_content :
    ocrShot.metadata = some { rawHtml := none, screenshot := some "IMG", fileSize := none } ∧
    fetchContent "https://example.com/page" true oOcrShot = .ok "TEXT" ∧
    fetchContent "https://example.com/page" true oOcrShot ≠ .ok "IMG" := by
  refine ⟨rfl, rfl, ?_⟩
  intro h
  rw [show fetchContent "https://example.com/page" true oOcrShot = .ok "TEXT" from rfl] at h
  exact absurd (Except.ok.inj h) (by decide)

/-- Witness for C6 with an http winner whose rawHtml payload is returned. -/
theorem fetchContent_raw_returns_rawHtml_witness :
    fetchContent "https://example.com/page" true oFast = .ok "<p>HTML</p>" :=
  fetchContent_raw_returns_rawHtml "https://example.com/page" oFast httpSample
    { rawHtml := some "<p>HTML</p>" } "<p>HTML</p>" rfl rfl rfl (by decide)

/-- C7: when the fast path does not return, the timeout does not fire and
every launched parallel extractor yields no result (null after its catch
handler), fetchContent fails with exactly the error
"All extraction methods failed". -/
theorem fetchContent_all_failed (url : String) (raw : Bool) (o : ExtractorOutcomes)
    (hfast : fastPathTaken o = false) (ht : o.timedOut = false)
    (hb : o.browser = none) (hocr : o.ocr = none)
    (hd : isDocumentUrl (processGitHubUrl url) = true → o.document = none) :
    fetchContent url raw o = .error "All extraction methods failed" := by
  rw [fetchContent_parallel url raw o hfast]
  have hcol : collectedResults (processGitHubUrl url) o = [] := by
    cases hdu : isDocumentUrl (processGitHubUrl url) with
    | true => simp [collectedResults, hb, hocr, hdu, hd hdu]
    | false => simp [collectedResults, hb, hocr, hdu]
  simp [parallelPhase, ht, hcol]

/-- An outcome set where the fast path throws and all parallel extractors
yield null. -/
def oNone : ExtractorOutcomes := ⟨.error (), none, none, none, false⟩

/-- Witness for C7: the total-failure call fails with the descriptive
error. -/
theorem fetchContent_all_failed_witness :
    fetchContent "https://example.com/page" false oNone =
      .error "All extraction methods failed" :=
  fetchContent_all_failed "https://example.com/page" false oNone rfl rfl rfl rfl
    (fun _ => rfl)

/-- C8 (amended): the document extractor is launched in the parallel phase
iff the fast path did not return and the lowercased processed URL contains
one of .pdf, .doc, .docx, .pptx, .ppt as a substring at any position — a
String.prototype.includes check, not a path-extension match. -/
theorem documentLaunch_iff_substring :
    (∀ (url : String) (o : ExtractorOutcomes),
      (launchedExtractors url o).document = true ↔
        fastPathTaken o = false ∧ isDocumentUrl (processGitHubUrl url) = true) ∧
    (∀ u : String, isDocumentUrl u = true ↔
      ∃ ext ∈ documentExtensions, containsChars ext (lowerChars u) = true) := by
  constructor
  · intro url o
    cases hf : fastPathTaken o with
    | true => simp [launchedExtractors, hf]
    | false => simp [launchedExtractors, hf]
  · intro u
    simp [isDocumentUrl, List.any_eq_true]

/-- C8 counterexample: a URL whose path ends in .html — not in any of the
five document extensions — still launches the document extractor, because
the source tests substring containment, not the path extension. -/
theorem documentLaunch_not_extension_based :
    (launchedExtractors "https://example.com/a.pdf.html" oNone).document = true ∧
    documentExtensions.all
      (fun ext => !(List.isSuffixOf ext (lowerChars "https://example.com/a.pdf.html"))) =
      true := by
  constructor
  · decide
  · decide

/-- Witness for C8: a genuine .pdf URL launches the document extractor when
the fast path fails. -/
theorem documentLaunch_iff_substring_witness :
    (launchedExtractors "https://x.com/file.pdf" oNone).document = true :=
  (documentLaunch_iff_substring.1 "https://x.com/file.pdf" oNone).mpr ⟨rfl, by decide⟩

/-- C9: on a URL whose lowercased form contains .ppt (or .pptx) but none of
.pdf, .docx, .doc, a successful download makes the document extractor return
a non-null result — it neither throws nor returns null — whose content is
the empty string (no parser branch handles presentation formats), with
method tag document and score floored to 0. -/
theorem extractDocument_ppt_empty (url : String) (dl : DocumentFetch)
    (_hppt : containsChars ".ppt".data (lowerChars url) = true)
    (hpdf : containsChars ".pdf".data (lowerChars url) = false)
    (hdocx : containsChars ".docx".data (lowerChars url) = false)
    (hdoc : containsChars ".doc".data (lowerChars url) = false) :
    extractDocument url dl =
      .ok ⟨"", "document", 0, some { fileSize := some dl.bufferLength }⟩ := by
  simp [extractDocument, hpdf, hdocx, hdoc, calculateScore_empty_document]

/-- Witness for C9 at a concrete pptx URL and a successful download. -/
theorem extractDocument_ppt_empty_witness :
    extractDocument "https://x.com/slides.pptx" ⟨"", 7, .ok "", ""⟩ =
      .ok ⟨"", "document", 0, some { fileSize := some 7 }⟩ :=
  extractDocument_ppt_empty "https://x.com/slides.pptx" ⟨"", 7, .ok "", ""⟩
    (by decide) (by decide) (by decide) (by decide)
